import Mathlib

/-
Verification of the HTTP/1.1 server framework in HttpServer.py.

The connection is modelled as a byte stream: a list of naturals (each byte
a value 0..255).  Reading from the stream is functional: every operation
returns the value read together with the remaining stream.  Fallible
operations return Except HTTPErrorM, mirroring the raised HTTPError.
-/

/-- MAX_LINE constant, HttpServer.py line 13. -/
def MAX_LINE : Nat := 64 * 1024

/-- MAX_HEADERS constant, HttpServer.py line 14. -/
def MAX_HEADERS : Nat := 100

/-- Model of rfile.readline(limit): read bytes until (and including) the
first LF byte 10, but never more than limit bytes; returns the line read and
the remaining stream. -/
def readline : Nat → List Nat → List Nat × List Nat
  | 0, s => ([], s)
  | _ + 1, [] => ([], [])
  | limit + 1, b :: rest =>
    if b = 10 then ([b], rest)
    else
      let p := readline limit rest
      (b :: p.1, p.2)

/-- Length of the first line of a stream: distance to the first LF byte,
inclusive, or the whole stream length if it has no LF. -/
def lineLen : List Nat → Nat
  | [] => 0
  | b :: rest => if b = 10 then 1 else lineLen rest + 1

theorem readline_append : ∀ (l : Nat) (s : List Nat),
    (readline l s).1 ++ (readline l s).2 = s := by
  intro l
  induction l with
  | zero => intro s; simp [readline]
  | succ n ih =>
    intro s
    cases s with
    | nil => simp [readline]
    | cons b rest =>
      by_cases hb : b = 10
      · simp [readline, hb]
      · simp [readline, hb, ih rest]

theorem readline_fst_length : ∀ (l : Nat) (s : List Nat),
    (readline l s).1.length = min l (lineLen s) := by
  intro l
  induction l with
  | zero => intro s; simp [readline]
  | succ n ih =>
    intro s
    cases s with
    | nil => simp [readline, lineLen]
    | cons b rest =>
      by_cases hb : b = 10
      · simp [readline, hb, lineLen]
      · simp [readline, hb, lineLen, ih rest, Nat.succ_min_succ]

theorem readline_nil : ∀ (l : Nat), readline l [] = ([], []) := by
  intro l
  cases l <;> simp [readline]

theorem readline_fst_ne_nil : ∀ (l : Nat) (s : List Nat),
    s ≠ [] → 0 < l → (readline l s).1 ≠ [] := by
  intro l s hs hl
  cases l with
  | zero => omega
  | succ n =>
    cases s with
    | nil => exact absurd rfl hs
    | cons b rest =>
      by_cases hb : b = 10 <;> simp [readline, hb]

theorem readline_snd_length_lt : ∀ (l : Nat) (s : List Nat),
    s ≠ [] → 0 < l → (readline l s).2.length < s.length := by
  intro l s hs hl
  have happ := readline_append l s
  have hne := readline_fst_ne_nil l s hs hl
  have : (readline l s).1.length + (readline l s).2.length = s.length := by
    rw [← List.length_append, happ]
  have : 0 < (readline l s).1.length := List.length_pos.mpr hne
  omega

/-- readline on a stream whose first line is body ++ [10], with no LF in the
body and the whole line within the limit, returns exactly that line. -/
theorem readline_prefix_line : ∀ (body : List Nat) (l : Nat) (r : List Nat),
    (∀ b ∈ body, b ≠ 10) → body.length + 1 ≤ l →
    readline l (body ++ 10 :: r) = (body ++ [10], r) := by
  intro body
  induction body with
  | nil =>
    intro l r _ hl
    cases l with
    | zero => omega
    | succ n => simp [readline]
  | cons b rest ih =>
    intro l r hno hl
    cases l with
    | zero => simp at hl
    | succ n =>
      have hb : b ≠ 10 := hno b (by simp)
      have hrest : ∀ x ∈ rest, x ≠ 10 := fun x hx => hno x (by simp [hx])
      have hlen : rest.length + 1 ≤ n := by simp at hl; omega
      simp [readline, hb, ih n r hrest hlen]

/-- Decoding with iso-8859-1 (HttpServer.py line 127): a single-byte-per-char
mapping that never fails; byte value n becomes the character of code point n. -/
def decodeLatin1 (bs : List Nat) : String := String.mk (bs.map Char.ofNat)

/-- Encoding a string with iso-8859-1: each character becomes the byte of its
code point (the model assumes code points below 256, as on all strings the
server emits). -/
def latin1Bytes (s : String) : List Nat := s.data.map Char.toNat

/-- Whitespace bytes for Python str.split() restricted to code points 0..255:
HT LF VT FF CR, FS GS RS US, SP, NEL (0x85) and NBSP (0xA0). -/
def isWsB (b : Nat) : Bool :=
  b = 9 ∨ b = 10 ∨ b = 11 ∨ b = 12 ∨ b = 13 ∨ b = 28 ∨ b = 29 ∨ b = 30 ∨
  b = 31 ∨ b = 32 ∨ b = 133 ∨ b = 160

/-- Whitespace test on characters, agreeing with isWsB through decodeLatin1. -/
def isPyWs (c : Char) : Bool := isWsB c.toNat

/-- Worker for pySplit: accumulate the current token (reversed) and cut at
whitespace, dropping empty pieces, as Python str.split() with no argument. -/
def splitWsGo : List Char → List Char → List (List Char)
  | [], [] => []
  | [], cur => [cur.reverse]
  | c :: rest, cur =>
    if isPyWs c then
      match cur with
      | [] => splitWsGo rest []
      | _ :: _ => cur.reverse :: splitWsGo rest []
    else splitWsGo rest (c :: cur)

/-- Model of Python str.split() with no argument: maximal runs of
non-whitespace characters, in order. -/
def pySplit (s : String) : List String := (splitWsGo s.data []).map String.mk

/-- Model of the HTTPError exception (HttpServer.py lines 54-59): status,
reason, optional body text. -/
structure HTTPErrorM where
  status : Nat
  reason : String
  body : Option String
deriving DecidableEq

/-- Model of HTTPServer.parse_request_line (HttpServer.py lines 122-135):
read one line of at most MAX_LINE + 1 bytes, reject oversized lines with 400,
decode as iso-8859-1, split on whitespace, require exactly three tokens and
version HTTP/1.1. -/
def parse_request_line (s : List Nat) :
    Except HTTPErrorM ((String × String × String) × List Nat) :=
  let p := readline (MAX_LINE + 1) s
  if p.1.length > MAX_LINE then
    .error ⟨400, "Bad request", some "Request line is too long"⟩
  else
    match pySplit (decodeLatin1 p.1) with
    | [method, target, ver] =>
      if ver = "HTTP/1.1" then .ok ((method, target, ver), p.2)
      else .error ⟨505, "HTTP Version Not Supported", none⟩
    | _ => .error ⟨400, "Bad request", some "Malformed request line"⟩

example :
    parse_request_line (latin1Bytes "GET /x/y HTTP/1.1\r\nrest") =
      .ok (("GET", "/x/y", "HTTP/1.1"), latin1Bytes "rest") := by rfl

example :
    parse_request_line (latin1Bytes "GET /x/y HTTP/1.0\r\n") =
      .error ⟨505, "HTTP Version Not Supported", none⟩ := by rfl

example :
    parse_request_line (latin1Bytes "GET  HTTP/1.1\r\n") =
      .error ⟨400, "Bad request", some "Malformed request line"⟩ := by rfl

/-- Loop of HTTPServer.parse_headers (HttpServer.py lines 138-149): read a
line, reject an oversized line with 494, stop on an empty line or a bare line
terminator, otherwise accumulate it, rejecting with 494 once more than
MAX_HEADERS lines have been accumulated.  Python appends the line and then
checks len(headers) > MAX_HEADERS; here the same check is phrased as a
countdown (remaining = MAX_HEADERS - acc.length) so the recursion is
structural; the two forms reject exactly the same streams with the same
error.  Returns the accumulated raw lines and the remaining stream. -/
def parse_headers_go (remaining : Nat) (s : List Nat) (acc : List (List Nat)) :
    Except HTTPErrorM (List (List Nat) × List Nat) :=
  let p := readline (MAX_LINE + 1) s
  if p.1.length > MAX_LINE then .error ⟨494, "Request header too large", none⟩
  else if p.1 = [13, 10] ∨ p.1 = [10] ∨ p.1 = [] then .ok (acc, p.2)
  else
    match remaining with
    | 0 => .error ⟨494, "Too many headers", none⟩
    | r + 1 => parse_headers_go r p.2 (acc ++ [p.1])

/-- Field split of one raw header line at its first colon byte 58: everything
before the colon and everything after it. -/
def splitAtColon : List Nat → Option (List Nat × List Nat)
  | [] => none
  | b :: rest =>
    if b = 58 then some ([], rest)
    else (splitAtColon rest).map (fun p => (b :: p.1, p.2))

/-- Model of the value normalisation the email parser applies to one header
line (Compat32.header_source_parse): strip leading SP and HT from the part
after the colon, then strip trailing CR and LF. -/
def stripValue (v : List Nat) : List Nat :=
  (((v.dropWhile (fun b => b = 32 ∨ b = 9)).reverse.dropWhile
      (fun b => b = 13 ∨ b = 10)).reverse)

/-- Model of the stdlib email parser applied to one raw header line, per the
spec (each line is Name: value; names kept verbatim, values with leading
blanks and the line terminator stripped); a line without a colon contributes
no entry.  Header folding (continuation lines) is out of scope per the spec
and not modelled. -/
def parseHeaderLine (line : List Nat) : Option (String × String) :=
  (splitAtColon line).map
    (fun p => (decodeLatin1 p.1, decodeLatin1 (stripValue p.2)))

/-- Ordered multi-map of header entries from the accumulated raw lines, as
Parser().parsestr produces from their concatenation (HttpServer.py 151-152). -/
def parseHeaderLines (ls : List (List Nat)) : List (String × String) :=
  ls.filterMap parseHeaderLine

/-- ASCII lower casing of a string, as Python str.lower() restricted to
ASCII.  Message.get compares k.lower() == name.lower(); for the ASCII names
the server looks up (Host, Content-Length) no latin-1 character outside
ASCII lowers to an ASCII one, so the ASCII model is exact at every call
site. -/
def lowerAscii (s : String) : String := String.mk (s.data.map Char.toLower)

/-- Model of email.message.Message.get: the value of the first header whose
name compares equal case-insensitively, or none. -/
def getHeader (hs : List (String × String)) (name : String) : Option String :=
  (hs.find? (fun p => lowerAscii p.1 = lowerAscii name)).map Prod.snd

/-- Model of HTTPServer.parse_headers (HttpServer.py lines 137-152): the
parsed header entries together with the remaining stream. -/
def parse_headers (s : List Nat) :
    Except HTTPErrorM (List (String × String) × List Nat) :=
  (parse_headers_go MAX_HEADERS s []).map
    (fun p => (parseHeaderLines p.1, p.2))

/-- Model of the Request object (HttpServer.py lines 17-23): rfile is the
remaining connection stream after the header block. -/
structure Request where
  method : String
  target : String
  version : String
  headers : List (String × String)
  rfile : List Nat
deriving DecidableEq

/-- Model of HTTPServer.parse_request (HttpServer.py lines 112-120): parse
the request line, then the headers, then require a truthy Host header value
(headers.get returns None when absent; None and the empty string are both
falsy). -/
def parse_request (s : List Nat) : Except HTTPErrorM Request :=
  match parse_request_line s with
  | .error e => .error e
  | .ok ((m, t, v), rest) =>
    match parse_headers rest with
    | .error e => .error e
    | .ok (hs, rest2) =>
      match getHeader hs "Host" with
      | none => .error ⟨400, "Bad request", some "Host header is missing"⟩
      | some host =>
        if host = "" then .error ⟨400, "Bad request", some "Host header is missing"⟩
        else .ok ⟨m, t, v, hs, rest2⟩

example :
    parse_request (latin1Bytes "GET /x/y HTTP/1.1\r\nHost: h\r\n\r\nBODY") =
      .ok ⟨"GET", "/x/y", "HTTP/1.1", [("Host", "h")], latin1Bytes "BODY"⟩ := by
  rfl

example :
    parse_request (latin1Bytes "GET /x/y HTTP/1.1\r\n\r\n") =
      .error ⟨400, "Bad request", some "Host header is missing"⟩ := by rfl

example :
    parse_request (latin1Bytes "GET /x/y HTTP/1.1\r\nHost:\r\nhost: h\r\n\r\n") =
      .error ⟨400, "Bad request", some "Host header is missing"⟩ := by rfl

/-- Decimal digit value of a character, or none. -/
def digit? (c : Char) : Option Nat :=
  if 48 ≤ c.toNat ∧ c.toNat ≤ 57 then some (c.toNat - 48) else none

/-- Value of a nonempty all-digit character list read in base 10. -/
def digitsVal (cs : List Char) : Option Nat :=
  if cs = [] then none
  else
    cs.foldl
      (fun acc c =>
        match acc, digit? c with
        | some a, some d => some (a * 10 + d)
        | _, _ => none)
      (some 0)

/-- Model of Python int() applied to a header value: surrounding whitespace
is ignored, an optional sign precedes a nonempty run of decimal digits;
anything else raises ValueError, modelled as none. -/
def pyInt (s : String) : Option Int :=
  let cs := (s.data.dropWhile isPyWs).reverse.dropWhile isPyWs |>.reverse
  match cs with
  | [] => none
  | c :: rest =>
    if c.toNat = 43 then (digitsVal rest).map Int.ofNat
    else if c.toNat = 45 then (digitsVal rest).map (fun n => -(n : Int))
    else (digitsVal cs).map Int.ofNat

example : pyInt "5" = some 5 := by rfl
example : pyInt " 042 " = some 42 := by rfl
example : pyInt "-7" = some (-7) := by rfl
example : pyInt "x" = none := by rfl
example : pyInt "" = none := by rfl

/-- Model of file read(n) on the remaining stream: a negative size reads to
the end of the stream, otherwise exactly n bytes are read (fewer only when
the stream ends first). -/
def pyRead (s : List Nat) (n : Int) : List Nat :=
  if n < 0 then s else s.take n.toNat

/-- Model of Request.body (HttpServer.py lines 39-43): look up
Content-Length; a missing header or a falsy (empty) value yields no body
(None); otherwise int() parses the value — failure there raises, modelled as
Except.error — and that many bytes are read from rfile. -/
def Request.body (req : Request) : Except Unit (Option (List Nat)) :=
  match getHeader req.headers "Content-Length" with
  | none => .ok none
  | some sz =>
    if sz = "" then .ok none
    else
      match pyInt sz with
      | none => .error ()
      | some n => .ok (some (pyRead req.rfile n))

/-- Model of the Response object (HttpServer.py lines 46-51); headers and
body default to None. -/
structure Response where
  status : Nat
  reason : String
  headers : Option (List (String × String))
  body : Option (List Nat)
deriving DecidableEq

/-- Status line bytes written by send_response (HttpServer.py lines 160-161). -/
def statusLineBytes (status : Nat) (reason : String) : List Nat :=
  latin1Bytes ("HTTP/1.1 " ++ toString status ++ " " ++ reason ++ "\r\n")

/-- Header line bytes written by send_response (HttpServer.py lines 164-166). -/
def headerLineBytes (p : String × String) : List Nat :=
  latin1Bytes (p.1 ++ ": " ++ p.2 ++ "\r\n")

/-- Model of HTTPServer.send_response (HttpServer.py lines 158-175): the
sequence of wfile.write calls, in order.  A None or empty header list and a
None or empty body are falsy, so their writes are skipped. -/
def send_response (r : Response) : List (List Nat) :=
  [statusLineBytes r.status r.reason]
    ++ (match r.headers with
        | none => []
        | some hs => if hs = [] then [] else hs.map headerLineBytes)
    ++ [[13, 10]]
    ++ (match r.body with
        | none => []
        | some b => if b = [] then [] else [b])

/-- Bytes that reach the socket: the concatenation of all writes. -/
def wireBytes (r : Response) : List Nat := (send_response r).flatten

/-- Modelled from the spec: response serialization writes the status line,
then each supplied header pair in the order given, then a blank line, then
the body verbatim if present, and nothing else (section 4.3 of the spec). -/
def specSerialize (status : Nat) (reason : String)
    (hdrs : List (String × String)) (body : Option (List Nat)) : List Nat :=
  statusLineBytes status reason
    ++ (hdrs.map headerLineBytes).flatten
    ++ [13, 10]
    ++ (match body with | none => [] | some b => b)

/-- UTF-8 encoding of one code point. -/
def utf8EncodeChar (n : Nat) : List Nat :=
  if n < 128 then [n]
  else if n < 2048 then [192 ||| (n >>> 6), 128 ||| (n &&& 63)]
  else if n < 65536 then
    [224 ||| (n >>> 12), 128 ||| ((n >>> 6) &&& 63), 128 ||| (n &&& 63)]
  else
    [240 ||| (n >>> 18), 128 ||| ((n >>> 12) &&& 63),
     128 ||| ((n >>> 6) &&& 63), 128 ||| (n &&& 63)]

/-- UTF-8 encoding of a string, as str.encode("utf-8"). -/
def utf8Encode (s : String) : List Nat :=
  (s.data.map (fun c => utf8EncodeChar c.toNat)).flatten

example : utf8Encode "hé" = [104, 195, 169] := by rfl

/-- Values reaching the except clause of serve_client / send_error: either a
structured HTTPError or any other exception, carried as its textual
description str(e). -/
inductive PyExc where
  | http (e : HTTPErrorM)
  | other (desc : String)
deriving DecidableEq

/-- Model of HTTPServer.send_error (HttpServer.py lines 177-187): the
Response it builds and passes to send_response.  For an HTTPError the try
block succeeds and uses its status and reason, with body text
(err.body or err.reason) — an absent or empty (falsy) body text falls back
to the reason — encoded as UTF-8; for any other value the attribute access
raises, the bare except builds the fixed 500 response with str(err) as body.
Either way a single Content-Length header carries the encoded length. -/
def send_error (err : PyExc) : Response :=
  match err with
  | .http e =>
    let body := utf8Encode
      (match e.body with
       | some b => if b = "" then e.reason else b
       | none => e.reason)
    ⟨e.status, e.reason, some [("Content-Length", toString body.length)], some body⟩
  | .other d =>
    let body := utf8Encode d
    ⟨500, "Internal Server Error",
      some [("Content-Length", toString body.length)], some body⟩

/-
Concurrency structure of serve_forever / serve_client, as event traces.
Each accepted connection is identified by the thread handle t of the worker
spawned for it.
-/

/-- Observable events of the acceptor and of a connection worker: socket
accept, thread start, registry insertion and removal, lock acquisition and
release, connection I/O (parse, dispatch, respond), connection close. -/
inductive Ev where
  | accept
  | spawnTh (t : Nat)
  | regInsert (t : Nat)
  | io
  | connClose
  | lockAcq
  | lockRel
  | regRemove (t : Nat)
deriving DecidableEq

/-- Trace of one iteration of the accept loop (HttpServer.py lines 79-83):
accept the connection, start the worker thread, add its handle to
self._threads.  The addition is performed by the acceptor and line 83 is not
inside any lock acquisition. -/
def acceptStep (t : Nat) : List Ev := [Ev.accept, Ev.spawnTh t, Ev.regInsert t]

/-- Trace of serve_client (HttpServer.py lines 92-110) for worker t: the
parse/dispatch/respond work on the connection (io), closing the connection,
then lock.acquire, removal of the own handle from self._threads,
lock.release. -/
def serveClientEvents (t : Nat) : List Ev :=
  [Ev.io, Ev.connClose, Ev.lockAcq, Ev.regRemove t, Ev.lockRel]

/-- State of the registry: the contents of self._threads together with a
flag recording whether some removal has raised KeyError. -/
structure RegState where
  reg : Finset Nat
  faulted : Bool
deriving DecidableEq

/-- Registry effect of one event: self._threads is a Python set, modelled as
a Finset.  add inserts; remove deletes when the handle is present and raises
KeyError when it is absent — the registry is then left unchanged and the
fault is recorded (the raising worker abandons its remaining statements,
none of which touch the registry: only the lock release on line 110 is
skipped).  Every other event leaves the state unchanged. -/
def regStep (st : RegState) : Ev → RegState
  | Ev.regInsert t => ⟨insert t st.reg, st.faulted⟩
  | Ev.regRemove t =>
    if t ∈ st.reg then ⟨st.reg.erase t, st.faulted⟩ else ⟨st.reg, true⟩
  | _ => st

/-- Registry state after a trace runs from the given state. -/
def regAfter (evs : List Ev) (st : RegState) : RegState :=
  evs.foldl regStep st

/-- Thread handle an event manipulates in the registry, if any. -/
def evTid : Ev → Option Nat
  | Ev.regInsert t => some t
  | Ev.regRemove t => some t
  | _ => none

/-- Events executed while the mutual-exclusion lock is held, in order. -/
def eventsUnderLock (evs : List Ev) : List Ev :=
  (evs.foldl
    (fun st e =>
      match e with
      | Ev.lockAcq => (st.1, true)
      | Ev.lockRel => (st.1, false)
      | _ => (if st.2 then st.1 ++ [e] else st.1, st.2))
    (([] : List Ev), false)).1

/-- Interleavings of two traces: every merge that keeps the relative order
of each one. -/
inductive Interleave : List Ev → List Ev → List Ev → Prop where
  | nil : Interleave [] [] []
  | left : ∀ {x xs ys zs}, Interleave xs ys zs → Interleave (x :: xs) ys (x :: zs)
  | right : ∀ {y xs ys zs}, Interleave xs ys zs → Interleave xs (y :: ys) (y :: zs)

theorem interleave_append : ∀ (xs ys : List Ev), Interleave xs ys (xs ++ ys) := by
  intro xs ys
  induction xs with
  | nil =>
    induction ys with
    | nil => exact Interleave.nil
    | cons y ys ihy => exact Interleave.right ihy
  | cons x xs ihx => exact Interleave.left ihx

theorem interleave_append_right : ∀ (xs ys : List Ev), Interleave xs ys (ys ++ xs) := by
  intro xs ys
  induction ys with
  | nil =>
    simp only [List.nil_append]
    induction xs with
    | nil => exact Interleave.nil
    | cons x xs ihx => exact Interleave.left ihx
  | cons y ys ihy => exact Interleave.right ihy

/-- Admissible event orders of one connection: the acceptor accepts the
connection and starts the worker thread (HttpServer.py lines 79-82); from
that point the acceptor's registry insertion (line 83) runs concurrently
with the worker body — th.start() precedes self._threads.add(th), so
nothing orders the worker's events after the insertion, and the two sides
interleave arbitrarily. -/
def ConnTrace (t : Nat) (zs : List Ev) : Prop :=
  ∃ ws, Interleave [Ev.regInsert t] (serveClientEvents t) ws ∧
    zs = Ev.accept :: Ev.spawnTh t :: ws

/-- The admissible order of one connection in which the acceptor's
insertion lands just before the n-th worker event (n = 5 places it after
the whole worker body).  Every ConnTrace has this shape for some n ≤ 5. -/
def connAt (t : Nat) (n : Nat) : List Ev :=
  Ev.accept :: Ev.spawnTh t ::
    ((serveClientEvents t).take n ++ Ev.regInsert t :: (serveClientEvents t).drop n)

/-
Lemmas about the whitespace split.
-/

theorem charToNat_ofNat (n : Nat) (h : n < 256) : (Char.ofNat n).toNat = n := by
  have hv : n.isValidChar := Or.inl (by omega)
  simp only [Char.ofNat, hv, dif_pos]
  rfl

theorem isPyWs_ofNat (b : Nat) (h : b < 256) : isPyWs (Char.ofNat b) = isWsB b := by
  simp [isPyWs, charToNat_ofNat b h]

theorem splitWsGo_drop_ws : ∀ (ws rest : List Char), (∀ c ∈ ws, isPyWs c) →
    splitWsGo (ws ++ rest) [] = splitWsGo rest [] := by
  intro ws
  induction ws with
  | nil => intro rest _; rfl
  | cons c ws ih =>
    intro rest hws
    have hc : isPyWs c := hws c (by simp)
    simp only [List.cons_append, splitWsGo, hc, if_pos]
    exact ih rest (fun x hx => hws x (by simp [hx]))

theorem splitWsGo_nil_ws : ∀ (ws : List Char), (∀ c ∈ ws, isPyWs c) →
    splitWsGo ws [] = [] := by
  intro ws h
  have := splitWsGo_drop_ws ws [] h
  simpa [splitWsGo] using this

theorem splitWsGo_ws_flush : ∀ (ws cur : List Char), cur ≠ [] →
    (∀ c ∈ ws, isPyWs c) → splitWsGo ws cur = [cur.reverse] := by
  intro ws
  induction ws with
  | nil =>
    intro cur hcur _
    cases cur with
    | nil => exact absurd rfl hcur
    | cons a l => rfl
  | cons c ws ih =>
    intro cur hcur hws
    have hc : isPyWs c := hws c (by simp)
    cases cur with
    | nil => exact absurd rfl hcur
    | cons a l =>
      simp only [splitWsGo, hc, if_pos]
      rw [splitWsGo_nil_ws ws (fun x hx => hws x (by simp [hx]))]

theorem splitWsGo_tok : ∀ (tok rest cur : List Char), (∀ c ∈ tok, ¬ isPyWs c) →
    splitWsGo (tok ++ rest) cur = splitWsGo rest (tok.reverse ++ cur) := by
  intro tok
  induction tok with
  | nil => intro rest cur _; rfl
  | cons c tok ih =>
    intro rest cur hno
    have hc : isPyWs c = false := by
      have := hno c (by simp)
      simpa using this
    simp only [List.cons_append, splitWsGo, hc, Bool.false_eq_true, if_false,
      List.append_eq]
    rw [ih rest (c :: cur) (fun x hx => hno x (by simp [hx]))]
    simp

theorem splitWsGo_assemble : ∀ (ps : List (List Char × List Char)) (t0 tws : List Char),
    t0 ≠ [] → (∀ c ∈ t0, ¬ isPyWs c) →
    (∀ p ∈ ps, p.1 ≠ [] ∧ (∀ c ∈ p.1, isPyWs c) ∧ p.2 ≠ [] ∧ (∀ c ∈ p.2, ¬ isPyWs c)) →
    (∀ c ∈ tws, isPyWs c) →
    splitWsGo (t0 ++ (ps.map (fun p => p.1 ++ p.2)).flatten ++ tws) [] =
      t0 :: ps.map Prod.snd := by
  intro ps
  induction ps with
  | nil =>
    intro t0 tl ht0 ht0c _ htl
    simp only [List.map_nil, List.flatten_nil, List.append_nil]
    rw [splitWsGo_tok t0 tl [] ht0c, List.append_nil,
      splitWsGo_ws_flush tl t0.reverse (by simp [ht0]) htl, List.reverse_reverse]
  | cons p ps ih =>
    intro t0 tl ht0 ht0c hps htl
    obtain ⟨hp1, hp1ws, hp2, hp2c⟩ := hps p (by simp)
    cases hq : p.1 with
    | nil => exact absurd hq hp1
    | cons w s =>
      have hw : isPyWs w := by rw [hq] at hp1ws; exact hp1ws w (by simp)
      have hsws : ∀ c ∈ s, isPyWs c := by
        rw [hq] at hp1ws; exact fun c hc => hp1ws c (by simp [hc])
      have hflat :
          (List.map (fun p => p.1 ++ p.2) (p :: ps)).flatten =
            (w :: s) ++ (p.2 ++ (List.map (fun p => p.1 ++ p.2) ps).flatten) := by
        simp [hq]
      rw [List.map_cons, List.flatten_cons]
      have hrw : t0 ++ ((p.1 ++ p.2) ++ (List.map (fun p => p.1 ++ p.2) ps).flatten) ++ tl
          = t0 ++ ((w :: s) ++ (p.2 ++ ((List.map (fun p => p.1 ++ p.2) ps).flatten ++ tl))) := by
        rw [hq]; simp [List.append_assoc]
      rw [hrw, splitWsGo_tok t0 _ [] ht0c, List.append_nil]
      cases hr : t0.reverse with
      | nil => exact absurd (by simpa using congrArg List.reverse hr) ht0
      | cons a l =>
        simp only [List.cons_append, splitWsGo, hw, if_pos, hr, List.append_eq]
        rw [← hr, List.reverse_reverse,
          splitWsGo_drop_ws s (p.2 ++ ((List.map (fun p => p.1 ++ p.2) ps).flatten ++ tl)) hsws]
        have := ih p.2 tl hp2 hp2c (fun q hqq => hps q (by simp [hqq])) htl
        rw [List.append_assoc] at this
        rw [this]
        simp

/-- Byte lists forming one whitespace-separated token of a request line:
nonempty, every byte below 256 and not whitespace. -/
abbrev tokB (t : List Nat) : Prop := t ≠ [] ∧ ∀ b ∈ t, b < 256 ∧ isWsB b = false

/-- Byte lists forming a whitespace separator inside a request line:
nonempty, every byte below 256, whitespace, and not the LF terminator. -/
abbrev sepB (s : List Nat) : Prop :=
  s ≠ [] ∧ ∀ b ∈ s, b < 256 ∧ isWsB b = true ∧ b ≠ 10

/-- Byte lists forming a possibly empty whitespace run inside a request
line (leading or trailing whitespace). -/
abbrev wsRun (s : List Nat) : Prop := ∀ b ∈ s, b < 256 ∧ isWsB b = true ∧ b ≠ 10

/-- Splitting a decoded assembled line: leading whitespace, a first token,
then separator/token pairs, then trailing whitespace and the LF, split into
exactly the decoded tokens — however much whitespace separates them. -/
theorem pySplit_assembled (pre t0 : List Nat) (ps : List (List Nat × List Nat))
    (tws : List Nat) (hpre : wsRun pre) (ht0 : tokB t0)
    (hps : ∀ p ∈ ps, sepB p.1 ∧ tokB p.2) (htws : wsRun tws) :
    pySplit (decodeLatin1
        ((pre ++ t0 ++ (ps.map (fun p => p.1 ++ p.2)).flatten ++ tws) ++ [10])) =
      decodeLatin1 t0 :: ps.map (fun p => decodeLatin1 p.2) := by
  unfold pySplit decodeLatin1
  simp only [List.map_append, List.map_flatten]
  have hflat :
      List.map (List.map Char.ofNat) (List.map (fun p => p.1 ++ p.2) ps) =
        List.map (fun q => q.1 ++ q.2)
          (List.map (fun p => (p.1.map Char.ofNat, p.2.map Char.ofNat)) ps) := by
    rw [List.map_map, List.map_map]
    apply List.map_congr_left
    intro p _
    simp
  have hassoc :
      List.map Char.ofNat pre ++ List.map Char.ofNat t0 ++
          (List.map (List.map Char.ofNat) (List.map (fun p => p.1 ++ p.2) ps)).flatten ++
          List.map Char.ofNat tws ++ List.map Char.ofNat [10] =
        List.map Char.ofNat pre ++
          (List.map Char.ofNat t0 ++
            (List.map (fun q => q.1 ++ q.2)
              (List.map (fun p => (p.1.map Char.ofNat, p.2.map Char.ofNat)) ps)).flatten ++
            (List.map Char.ofNat tws ++ List.map Char.ofNat [10])) := by
    rw [hflat]
    simp [List.append_assoc]
  rw [hassoc]
  rw [splitWsGo_drop_ws _ _ (by
    intro c hc
    obtain ⟨b, hb, rfl⟩ := List.mem_map.mp hc
    rw [isPyWs_ofNat b (hpre b hb).1]
    exact (hpre b hb).2.1)]
  rw [splitWsGo_assemble _ _ _
    (by
      intro h
      exact ht0.1 (by simpa using congrArg (List.map Char.toNat) h))
    (by
      intro c hc
      obtain ⟨b, hb, rfl⟩ := List.mem_map.mp hc
      rw [isPyWs_ofNat b (ht0.2 b hb).1]
      simp [(ht0.2 b hb).2])
    (by
      intro q hq
      obtain ⟨p, hp, rfl⟩ := List.mem_map.mp hq
      obtain ⟨⟨hs1, hs2⟩, ht1, ht2⟩ := hps p hp
      refine ⟨?_, ?_, ?_, ?_⟩
      · intro h
        exact hs1 (by simpa using congrArg (List.map Char.toNat) h)
      · intro c hc
        obtain ⟨b, hb, rfl⟩ := List.mem_map.mp hc
        rw [isPyWs_ofNat b (hs2 b hb).1]
        exact (hs2 b hb).2.1
      · intro h
        exact ht1 (by simpa using congrArg (List.map Char.toNat) h)
      · intro c hc
        obtain ⟨b, hb, rfl⟩ := List.mem_map.mp hc
        rw [isPyWs_ofNat b (ht2 b hb).1]
        simp [(ht2 b hb).2])
    (by
      intro c hc
      simp only [List.map_cons, List.map_nil] at hc
      rcases List.mem_append.mp hc with hin | hin
      · obtain ⟨b, hb, rfl⟩ := List.mem_map.mp hin
        rw [isPyWs_ofNat b (htws b hb).1]
        exact (htws b hb).2.1
      · simp only [List.mem_singleton] at hin
        subst hin
        rw [isPyWs_ofNat 10 (by omega)]
        simp [isWsB])]
  simp [List.map_map]

/-- Byte lists forming the body of one well-formed raw header line: nonempty,
free of LF, and small enough that the line with its CRLF terminator passes
the MAX_LINE check. -/
abbrev properLine (l : List Nat) : Prop :=
  l ≠ [] ∧ (∀ b ∈ l, b ≠ 10) ∧ l.length + 2 ≤ MAX_LINE

/-- Wire encoding of a header block: each line body followed by CRLF. -/
def encodeLines (ls : List (List Nat)) : List Nat :=
  (ls.map (fun l => l ++ [13, 10])).flatten

/-- Behaviour of the header loop on a block of well-formed lines followed by
the CRLF terminator: with fewer lines than the remaining allowance they are
all accumulated and the loop stops at the terminator; with more, the loop
fails with 494 Too many headers. -/
theorem parse_headers_go_block : ∀ (ls : List (List Nat)) (rem : Nat)
    (acc : List (List Nat)) (rest : List Nat),
    (∀ l ∈ ls, properLine l) →
    parse_headers_go rem (encodeLines ls ++ [13, 10] ++ rest) acc =
      if rem < ls.length then .error ⟨494, "Too many headers", none⟩
      else .ok (acc ++ ls.map (fun l => l ++ [13, 10]), rest) := by
  intro ls
  induction ls with
  | nil =>
    intro rem acc rest _
    have hread : readline (MAX_LINE + 1) ([13] ++ 10 :: rest) = ([13] ++ [10], rest) :=
      readline_prefix_line [13] (MAX_LINE + 1) rest (by simp) (by simp [MAX_LINE])
    unfold parse_headers_go
    simp only [encodeLines, List.map_nil, List.flatten_nil, List.nil_append]
    have hsh : (13 : Nat) :: 10 :: rest = [13] ++ 10 :: rest := by simp
    rw [show ([13, 10] : List Nat) ++ rest = [13] ++ 10 :: rest by simp]
    rw [hread]
    simp [MAX_LINE]
  | cons l ls ih =>
    intro rem acc rest hls
    obtain ⟨hne, hno, hlen⟩ := hls l (by simp)
    have hshape :
        encodeLines (l :: ls) ++ [13, 10] ++ rest =
          (l ++ [13]) ++ 10 :: (encodeLines ls ++ [13, 10] ++ rest) := by
      simp [encodeLines, List.append_assoc]
    have hread :
        readline (MAX_LINE + 1) ((l ++ [13]) ++ 10 :: (encodeLines ls ++ [13, 10] ++ rest)) =
          ((l ++ [13]) ++ [10], encodeLines ls ++ [13, 10] ++ rest) := by
      apply readline_prefix_line
      · intro b hb
        rcases List.mem_append.mp hb with h | h
        · exact hno b h
        · simp only [List.mem_singleton] at h; omega
      · simp only [List.length_append, List.length_singleton]
        unfold MAX_LINE at hlen ⊢
        omega
    unfold parse_headers_go
    rw [hshape, hread]
    have hlen2 : ((l ++ [13]) ++ [10]).length = l.length + 2 := by simp
    have hnotlong : ¬ ((l ++ [13]) ++ [10]).length > MAX_LINE := by
      rw [hlen2]; omega
    have hnotterm :
        ¬ ((l ++ [13]) ++ [10] = [13, 10] ∨ (l ++ [13]) ++ [10] = [10] ∨
           (l ++ [13]) ++ [10] = []) := by
      intro h
      rcases h with h | h | h
      · have := congrArg List.length h
        simp at this
        exact hne this
      · have := congrArg List.length h
        simp at this
      · have := congrArg List.length h
        simp at this
    simp only [hnotlong, if_false, hnotterm, if_false]
    cases rem with
    | zero =>
      simp
    | succ r =>
      have hstep := ih r (acc ++ [(l ++ [13]) ++ [10]]) rest
        (fun x hx => hls x (by simp [hx]))
      simp only [List.append_assoc, List.cons_append, List.nil_append] at hstep
      by_cases hc : r < ls.length
      · simp [hstep, hc, Nat.succ_lt_succ_iff]
      · simp [hstep, hc, Nat.succ_lt_succ_iff, List.append_assoc]



theorem lineLen_replicate (n c : Nat) (h : c ≠ 10) :
    lineLen (List.replicate n c) = n := by
  induction n with
  | zero => simp [lineLen]
  | succ k ih => simp [List.replicate_succ, lineLen, h, ih]

/-- parse_request_line rejects any stream whose first line is longer than
MAX_LINE with 400 Request line is too long. -/
theorem parse_request_line_too_long (s : List Nat) (h : lineLen s > MAX_LINE) :
    parse_request_line s = .error ⟨400, "Bad request", some "Request line is too long"⟩ := by
  unfold parse_request_line
  have hlen : (readline (MAX_LINE + 1) s).1.length = MAX_LINE + 1 := by
    rw [readline_fst_length]
    omega
  simp [hlen]

/-- a parse_request_line failure propagates through parse_request. -/
theorem parse_request_error_of_line (s : List Nat) (e : HTTPErrorM)
    (h : parse_request_line s = .error e) : parse_request s = .error e := by
  unfold parse_request
  rw [h]

/-- the header loop rejects any stream whose first line is longer than
MAX_LINE with 494 Request header too large, whatever has been accumulated. -/
theorem parse_headers_go_too_long (rem : Nat) (s : List Nat)
    (acc : List (List Nat)) (h : lineLen s > MAX_LINE) :
    parse_headers_go rem s acc = .error ⟨494, "Request header too large", none⟩ := by
  unfold parse_headers_go
  have hlen : (readline (MAX_LINE + 1) s).1.length = MAX_LINE + 1 := by
    rw [readline_fst_length]
    omega
  simp [hlen]

/-- One-step unfolding equation of the header loop, with the let expanded. -/
theorem parse_headers_go_eq (rem : Nat) (s : List Nat) (acc : List (List Nat)) :
    parse_headers_go rem s acc =
      if (readline (MAX_LINE + 1) s).1.length > MAX_LINE then
        .error ⟨494, "Request header too large", none⟩
      else if (readline (MAX_LINE + 1) s).1 = [13, 10] ∨
          (readline (MAX_LINE + 1) s).1 = [10] ∨
          (readline (MAX_LINE + 1) s).1 = [] then
        .ok (acc, (readline (MAX_LINE + 1) s).2)
      else
        match rem with
        | 0 => .error ⟨494, "Too many headers", none⟩
        | r + 1 =>
          parse_headers_go r (readline (MAX_LINE + 1) s).2
            (acc ++ [(readline (MAX_LINE + 1) s).1]) := by
  cases rem <;> rfl

/-- any successful run of the header loop returns at most acc.length + rem
lines, each newly accepted one no longer than MAX_LINE. -/
theorem parse_headers_go_ok_bound : ∀ (rem : Nat) (s : List Nat)
    (acc ls : List (List Nat)) (rest : List Nat),
    parse_headers_go rem s acc = .ok (ls, rest) →
    ls.length ≤ acc.length + rem ∧ ∀ l ∈ ls, l ∈ acc ∨ l.length ≤ MAX_LINE := by
  intro rem
  induction rem with
  | zero =>
    intro s acc ls rest h
    rw [parse_headers_go_eq] at h
    by_cases h1 : (readline (MAX_LINE + 1) s).1.length > MAX_LINE
    · rw [if_pos h1] at h
      exact absurd h (by simp)
    · rw [if_neg h1] at h
      by_cases h2 : (readline (MAX_LINE + 1) s).1 = [13, 10] ∨
          (readline (MAX_LINE + 1) s).1 = [10] ∨ (readline (MAX_LINE + 1) s).1 = []
      · rw [if_pos h2] at h
        rw [Except.ok.injEq, Prod.mk.injEq] at h
        obtain ⟨hacc, _⟩ := h
        subst hacc
        exact ⟨by omega, fun l hl => Or.inl hl⟩
      · rw [if_neg h2] at h
        exact absurd h (by simp)
  | succ r ih =>
    intro s acc ls rest h
    rw [parse_headers_go_eq] at h
    by_cases h1 : (readline (MAX_LINE + 1) s).1.length > MAX_LINE
    · rw [if_pos h1] at h
      exact absurd h (by simp)
    · rw [if_neg h1] at h
      by_cases h2 : (readline (MAX_LINE + 1) s).1 = [13, 10] ∨
          (readline (MAX_LINE + 1) s).1 = [10] ∨ (readline (MAX_LINE + 1) s).1 = []
      · rw [if_pos h2] at h
        rw [Except.ok.injEq, Prod.mk.injEq] at h
        obtain ⟨hacc, _⟩ := h
        subst hacc
        exact ⟨by omega, fun l hl => Or.inl hl⟩
      · rw [if_neg h2] at h
        obtain ⟨hb, hmem⟩ := ih _ _ _ _ h
        refine ⟨by simp at hb; omega, ?_⟩
        intro l hl
        rcases hmem l hl with hin | hlen
        · rcases List.mem_append.mp hin with hin2 | hin2
          · exact Or.inl hin2
          · simp only [List.mem_singleton] at hin2
            subst hin2
            right
            omega
        · exact Or.inr hlen

/-- the version token of any successful parse_request_line is HTTP/1.1. -/
theorem parse_request_line_ok_version (s : List Nat) (m t v : String)
    (r : List Nat) (h : parse_request_line s = .ok ((m, t, v), r)) :
    v = "HTTP/1.1" := by
  unfold parse_request_line at h
  by_cases h1 : (readline (MAX_LINE + 1) s).1.length > MAX_LINE
  · rw [if_pos h1] at h
    exact absurd h (by simp)
  · rw [if_neg h1] at h
    rcases htoks : pySplit (decodeLatin1 (readline (MAX_LINE + 1) s).1) with
      _ | ⟨a, _ | ⟨b, _ | ⟨c, _ | ⟨d, e⟩⟩⟩⟩ <;> rw [htoks] at h
    · exact absurd h (by simp)
    · exact absurd h (by simp)
    · exact absurd h (by simp)
    · by_cases hver : c = "HTTP/1.1"
      · simp only [if_pos hver] at h
        rw [Except.ok.injEq, Prod.mk.injEq, Prod.mk.injEq, Prod.mk.injEq] at h
        obtain ⟨⟨_, _, hv⟩, _⟩ := h
        rw [← hv]
        exact hver
      · simp only [if_neg hver] at h
        exact absurd h (by simp)
    · exact absurd h (by simp)

/-- parse_request_line succeeds exactly on within-limit lines that split
into three tokens whose third is HTTP/1.1. -/
theorem parse_request_line_of_toks (s : List Nat) (m t : String)
    (hshort : ¬ (readline (MAX_LINE + 1) s).1.length > MAX_LINE)
    (htoks : pySplit (decodeLatin1 (readline (MAX_LINE + 1) s).1) =
      [m, t, "HTTP/1.1"]) :
    parse_request_line s =
      .ok ((m, t, "HTTP/1.1"), (readline (MAX_LINE + 1) s).2) := by
  unfold parse_request_line
  simp [htoks, hshort]

/-- parse_request_line rejects a within-limit line whose three tokens end in
anything other than HTTP/1.1 with 505. -/
theorem parse_request_line_unsupported (s : List Nat) (m t v : String)
    (hshort : ¬ (readline (MAX_LINE + 1) s).1.length > MAX_LINE)
    (htoks : pySplit (decodeLatin1 (readline (MAX_LINE + 1) s).1) = [m, t, v])
    (hv : v ≠ "HTTP/1.1") :
    parse_request_line s = .error ⟨505, "HTTP Version Not Supported", none⟩ := by
  unfold parse_request_line
  simp [htoks, hshort, hv]

/-- C2: send_response is a deterministic, order-preserving serializer: the
bytes written are exactly the status line HTTP/1.1 {status} {reason} CRLF,
then each supplied header pair in the order given as {name}: {value} CRLF,
then CRLF, then the body verbatim if present, with nothing reordered,
deduplicated or added; in particular for status 200, reason OK, headers
[(Content-Length, 5)] and body hello the output is exactly
HTTP/1.1 200 OK CRLF Content-Length: 5 CRLF CRLF hello. -/
theorem thm_C2_send_response_serialization :
    (∀ r : Response,
      wireBytes r = specSerialize r.status r.reason (r.headers.getD []) r.body) ∧
    wireBytes ⟨200, "OK", some [("Content-Length", "5")], some (latin1Bytes "hello")⟩ =
      latin1Bytes "HTTP/1.1 200 OK\r\nContent-Length: 5\r\n\r\nhello" := by
  constructor
  · intro r
    rcases r with ⟨st, rs, hs, bd⟩
    unfold wireBytes send_response specSerialize
    cases hs with
    | none =>
      cases bd with
      | none => simp
      | some b =>
        by_cases hb : b = [] <;> simp [hb]
    | some hl =>
      by_cases hh : hl = []
      · cases bd with
        | none => simp [hh]
        | some b => by_cases hb : b = [] <;> simp [hh, hb]
      · cases bd with
        | none => simp [hh]
        | some b => by_cases hb : b = [] <;> simp [hh, hb]
  · rfl

/-- C5: Request.body returns None when the Content-Length header is absent
(no body, distinct from a zero-length body), and when Content-Length parses
to N with N at least 0 it reads exactly the next N bytes of the request
stream. -/
theorem thm_C5_body (req : Request) (N : Nat) (sz : String) :
    (getHeader req.headers "Content-Length" = none →
      Request.body req = .ok none) ∧
    (getHeader req.headers "Content-Length" = some sz →
      pyInt sz = some (N : Int) →
      Request.body req = .ok (some (req.rfile.take N)) ∧
      (N ≤ req.rfile.length → (req.rfile.take N).length = N)) := by
  constructor
  · intro h
    unfold Request.body
    rw [h]
  · intro h hN
    have hne : sz ≠ "" := by
      intro he
      rw [he] at hN
      exact absurd hN (by simp [pyInt])
    constructor
    · unfold Request.body
      rw [h]
      simp only [if_neg hne, hN]
      unfold pyRead
      rw [if_neg (by omega)]
      simp
    · intro hle
      simp [List.length_take]
      omega

/-- C5 witness: a request without Content-Length has no body; one with
Content-Length 5 yields exactly the next five bytes of the stream. -/
theorem thm_C5_body_witness :
    Request.body ⟨"GET", "/", "HTTP/1.1", [("Host", "h")], latin1Bytes "hello!"⟩ =
      .ok none ∧
    Request.body ⟨"PUT", "/f", "HTTP/1.1",
        [("Host", "h"), ("Content-Length", "5")], latin1Bytes "hello!"⟩ =
      .ok (some ((latin1Bytes "hello!").take 5)) ∧
    ((latin1Bytes "hello!").take 5).length = 5 := by
  refine ⟨?_, ?_, ?_⟩
  · exact (thm_C5_body ⟨"GET", "/", "HTTP/1.1", [("Host", "h")],
      latin1Bytes "hello!"⟩ 0 "0").1 (by rfl)
  · exact ((thm_C5_body ⟨"PUT", "/f", "HTTP/1.1",
      [("Host", "h"), ("Content-Length", "5")], latin1Bytes "hello!"⟩ 5 "5").2
      (by rfl) (by rfl)).1
  · exact ((thm_C5_body ⟨"PUT", "/f", "HTTP/1.1",
      [("Host", "h"), ("Content-Length", "5")], latin1Bytes "hello!"⟩ 5 "5").2
      (by rfl) (by rfl)).2 (by decide)

/-- C7 counterexample: the claim says the error body is the UTF-8 encoding
of the error body text whenever that text is present; but for an HTTPError
carrying the present-but-empty body text "" the code falls back to the
reason phrase (err.body or err.reason is falsy on ""), so the built body is
the encoded reason, not the encoded empty text. -/
theorem thm_C7_counterexample :
    (HTTPErrorM.mk 400 "Bad request" (some "")).body = some "" ∧
    (send_error (.http ⟨400, "Bad request", some ""⟩)).body =
      some (utf8Encode "Bad request") ∧
    (send_error (.http ⟨400, "Bad request", some ""⟩)).body ≠
      some (utf8Encode "") := by
  refine ⟨rfl, rfl, by decide⟩

/-- C7 as amended: for a structured HTTPError the response built by
send_error carries the error status and reason, with body the UTF-8
encoding of the error body text when that text is present and non-empty and
of the reason phrase otherwise, and a single Content-Length header holding
the encoded body length; for any other value the response is 500 Internal
Server Error with the value textual description as body, again with a
matching Content-Length. -/
theorem thm_C7_send_error :
    (∀ e : HTTPErrorM,
      (send_error (.http e)).status = e.status ∧
      (send_error (.http e)).reason = e.reason ∧
      (∀ b, e.body = some b → b ≠ "" →
        (send_error (.http e)).body = some (utf8Encode b)) ∧
      ((e.body = none ∨ e.body = some "") →
        (send_error (.http e)).body = some (utf8Encode e.reason)) ∧
      (send_error (.http e)).headers =
        some [("Content-Length",
          toString (((send_error (.http e)).body.getD []).length))]) ∧
    (∀ d : String,
      send_error (.other d) =
        ⟨500, "Internal Server Error",
          some [("Content-Length", toString (utf8Encode d).length)],
          some (utf8Encode d)⟩) := by
  constructor
  · intro e
    rcases e with ⟨st, rs, bd⟩
    refine ⟨rfl, rfl, ?_, ?_, ?_⟩
    · intro b hb hne
      cases bd with
      | none => exact absurd hb (by simp)
      | some b2 =>
        simp only [Option.some.injEq] at hb
        subst hb
        simp [send_error, hne]
    · intro hcase
      rcases hcase with hb | hb
      · have hb2 : bd = none := hb
        subst hb2
        simp [send_error]
      · have hb2 : bd = some "" := hb
        subst hb2
        simp [send_error]
    · cases bd with
      | none => simp [send_error]
      | some b2 => by_cases hb : b2 = "" <;> simp [send_error, hb]
  · intro d
    rfl

/-- C7 witness: the amended theorem applied to an HTTPError with a
non-empty body text, one without a body text, and an unstructured failure. -/
theorem thm_C7_send_error_witness :
    (send_error (.http ⟨404, "Not Found", some "gone"⟩)).body =
      some (utf8Encode "gone") ∧
    (send_error (.http ⟨505, "HTTP Version Not Supported", none⟩)).body =
      some (utf8Encode "HTTP Version Not Supported") ∧
    send_error (.other "division by zero") =
      ⟨500, "Internal Server Error",
        some [("Content-Length", toString (utf8Encode "division by zero").length)],
        some (utf8Encode "division by zero")⟩ := by
  refine ⟨?_, ?_, ?_⟩
  · exact (thm_C7_send_error.1 ⟨404, "Not Found", some "gone"⟩).2.2.1 "gone"
      (by rfl) (by decide)
  · exact (thm_C7_send_error.1 ⟨505, "HTTP Version Not Supported", none⟩).2.2.2.1
      (Or.inl (by rfl))
  · exact thm_C7_send_error.2 "division by zero"

/-- An event whose only possible registry effect concerns the handle t. -/
def touchesOnly (t : Nat) (e : Ev) : Prop := ∀ u, evTid e = some u → u = t

theorem erase_erase_comm (reg : Finset Nat) (a b : Nat) :
    (reg.erase a).erase b = (reg.erase b).erase a := by
  ext x
  simp only [Finset.mem_erase]
  tauto

/-- Registry steps of events touching different handles commute, faults
included. -/
theorem regStep_comm (st : RegState) (e1 e2 : Ev) (t0 t1 : Nat)
    (hne : t0 ≠ t1) (h1 : touchesOnly t0 e1) (h2 : touchesOnly t1 e2) :
    regStep (regStep st e1) e2 = regStep (regStep st e2) e1 := by
  cases e1 <;> cases e2 <;> try rfl
  case regInsert.regInsert a b =>
    simp only [regStep]
    rw [Finset.Insert.comm]
  case regInsert.regRemove a b =>
    have hab : a ≠ b := by
      have ha := h1 a rfl
      have hb := h2 b rfl
      rw [ha, hb]
      exact hne
    by_cases hm : b ∈ st.reg
    · simp [regStep, hm, Finset.mem_insert, Ne.symm hab,
        Finset.erase_insert_of_ne hab]
    · simp [regStep, hm, Finset.mem_insert, Ne.symm hab]
  case regRemove.regInsert a b =>
    have hab : a ≠ b := by
      have ha := h1 a rfl
      have hb := h2 b rfl
      rw [ha, hb]
      exact hne
    by_cases hm : a ∈ st.reg
    · simp [regStep, hm, Finset.mem_insert, hab,
        Finset.erase_insert_of_ne (Ne.symm hab)]
    · simp [regStep, hm, Finset.mem_insert, hab]
  case regRemove.regRemove a b =>
    have hab : a ≠ b := by
      have ha := h1 a rfl
      have hb := h2 b rfl
      rw [ha, hb]
      exact hne
    by_cases hma : a ∈ st.reg <;> by_cases hmb : b ∈ st.reg <;>
      simp [regStep, hma, hmb, Finset.mem_erase, hab, Ne.symm hab,
        erase_erase_comm]

theorem regAfter_cons (e : Ev) (evs : List Ev) (st : RegState) :
    regAfter (e :: evs) st = regAfter evs (regStep st e) := rfl

/-- A single step of a foreign connection moves through a whole trace of
another connection. -/
theorem regAfter_step_comm (xs : List Ev) (y : Ev) (t0 t1 : Nat)
    (hne : t0 ≠ t1) (hx : ∀ e ∈ xs, touchesOnly t0 e) (hy : touchesOnly t1 y) :
    ∀ st, regAfter xs (regStep st y) = regStep (regAfter xs st) y := by
  induction xs with
  | nil => intro st; rfl
  | cons e xs ih =>
    intro st
    rw [regAfter_cons, regAfter_cons]
    rw [← regStep_comm st e y t0 t1 hne (hx e (by simp)) hy]
    exact ih (fun x hxm => hx x (by simp [hxm])) (regStep st e)

/-- Running any interleaving of two tid-disjoint traces is running one and
then the other. -/
theorem interleave_regAfter (xs ys zs : List Ev) (t0 t1 : Nat) (hne : t0 ≠ t1)
    (hx : ∀ e ∈ xs, touchesOnly t0 e) (hy : ∀ e ∈ ys, touchesOnly t1 e)
    (h : Interleave xs ys zs) :
    ∀ st, regAfter zs st = regAfter ys (regAfter xs st) := by
  induction h with
  | nil => intro st; rfl
  | left h ih =>
    rename_i x xs2 ys2 zs2
    intro st
    rw [regAfter_cons, regAfter_cons]
    exact ih (fun e he => hx e (by simp [he])) hy (regStep st x)
  | right h ih =>
    rename_i y xs2 ys2 zs2
    intro st
    rw [regAfter_cons]
    have hstep := regAfter_step_comm xs2 y t0 t1 hne hx (hy y (by simp)) st
    rw [ih hx (fun e he => hy e (by simp [he])) (regStep st y), hstep,
      ← regAfter_cons y ys2 (regAfter xs2 st)]

/-- Every worker event manipulates only the worker's own handle. -/
theorem serveClient_touches (t : Nat) :
    ∀ e ∈ serveClientEvents t, touchesOnly t e := by
  intro e he
  simp only [serveClientEvents, List.mem_cons, List.not_mem_nil,
    or_false] at he
  rcases he with rfl | rfl | rfl | rfl | rfl <;> intro u hu <;>
    simp [evTid] at hu
  omega

/-- Every event of an admissible connection order manipulates only that
connection's handle. -/
theorem connAt_touches (t n : Nat) : ∀ e ∈ connAt t n, touchesOnly t e := by
  intro e he
  simp only [connAt, List.mem_cons, List.mem_append] at he
  rcases he with rfl | rfl | hin | rfl | hin
  · intro u hu
    simp [evTid] at hu
  · intro u hu
    simp [evTid] at hu
  · exact serveClient_touches t e (List.take_subset n _ hin)
  · intro u hu
    simp [evTid] at hu
    omega
  · exact serveClient_touches t e (List.drop_subset n _ hin)

theorem interleave_nil_left : ∀ (ys zs : List Ev),
    Interleave [] ys zs → zs = ys := by
  intro ys
  induction ys with
  | nil =>
    intro zs h
    cases h
    rfl
  | cons y ys ih =>
    intro zs h
    cases h with
    | right h2 => rw [ih _ h2]

/-- An interleaving of a single event with a trace inserts that event at
some position of the trace. -/
theorem interleave_single : ∀ (x : Ev) (ys zs : List Ev),
    Interleave [x] ys zs →
    ∃ n, n ≤ ys.length ∧ zs = ys.take n ++ x :: ys.drop n := by
  intro x ys
  induction ys with
  | nil =>
    intro zs h
    cases h with
    | left h2 =>
      rw [interleave_nil_left _ _ h2]
      exact ⟨0, by simp, rfl⟩
  | cons y ys ih =>
    intro zs h
    cases h with
    | left h2 =>
      rw [interleave_nil_left _ _ h2]
      exact ⟨0, by simp, rfl⟩
    | right h2 =>
      obtain ⟨n, hn, heq⟩ := ih _ h2
      refine ⟨n + 1, by simp; omega, ?_⟩
      simp [heq]

theorem interleave_single_at : ∀ (x : Ev) (ys : List Ev) (n : Nat),
    n ≤ ys.length → Interleave [x] ys (ys.take n ++ x :: ys.drop n) := by
  intro x ys
  induction ys with
  | nil =>
    intro n hn
    cases n with
    | zero => exact Interleave.left Interleave.nil
    | succ m => simp at hn
  | cons y ys ih =>
    intro n hn
    cases n with
    | zero =>
      simp only [List.take_zero, List.drop_zero, List.nil_append]
      exact Interleave.left (by simpa using interleave_append [] (y :: ys))
    | succ m =>
      simp only [List.take_succ_cons, List.drop_succ_cons, List.cons_append]
      exact Interleave.right (ih m (by simp at hn; omega))

/-- Every admissible connection order has the connAt shape. -/
theorem connTrace_shape (t : Nat) (zs : List Ev) (h : ConnTrace t zs) :
    ∃ n, n ≤ 5 ∧ zs = connAt t n := by
  obtain ⟨ws, hint, rfl⟩ := h
  obtain ⟨n, hn, heq⟩ := interleave_single _ _ _ hint
  refine ⟨n, by simpa [serveClientEvents] using hn, ?_⟩
  simp only [connAt, heq]

/-- Every connAt order is admissible. -/
theorem connAt_trace (t : Nat) (n : Nat) (hn : n ≤ 5) :
    ConnTrace t (connAt t n) :=
  ⟨(serveClientEvents t).take n ++ Ev.regInsert t :: (serveClientEvents t).drop n,
   interleave_single_at (Ev.regInsert t) (serveClientEvents t) n
     (by simpa [serveClientEvents] using hn), rfl⟩

/-- When the acceptor's insertion lands before the worker's removal, the
removal finds the handle and the connection leaves the registry state
unchanged. -/
theorem connAt_clean (t : Nat) (n : Nat) (st : RegState) (hmem : t ∉ st.reg)
    (hn : n ≤ 3) : regAfter (connAt t n) st = st := by
  rcases st with ⟨reg, f⟩
  have hmem2 : t ∉ reg := hmem
  interval_cases n <;>
    simp [connAt, serveClientEvents, regAfter, regStep,
      Finset.mem_insert_self, Finset.erase_insert hmem2]

/-- When the worker's removal lands before the acceptor's insertion,
set.remove raises KeyError on the absent handle and the handle added
afterwards stays registered. -/
theorem connAt_fault (t : Nat) (n : Nat) (st : RegState) (hmem : t ∉ st.reg)
    (h4 : 4 ≤ n) (h5 : n ≤ 5) :
    regAfter (connAt t n) st = ⟨insert t st.reg, true⟩ := by
  rcases st with ⟨reg, f⟩
  have hmem2 : t ∉ reg := hmem
  interval_cases n <;>
    simp [connAt, serveClientEvents, regAfter, regStep, hmem2]

/-- C9 counterexample: the claim says the worker acquires the lock exactly
twice, once to insert its handle at spawn time, and that after concurrent
connections complete the registry is empty.  But across the acceptor step
and the whole worker body the lock is acquired exactly once, the insertion
(self._threads.add on line 83) happens in the acceptor with no lock
acquisition anywhere in that step, and — since th.start() on line 82
precedes the add on line 83 — there is an admissible schedule of two
connections (here: connection 1 runs cleanly, then connection 0's worker
races ahead of its own insertion) after which the registry holds handle 0
and a KeyError has been raised, so the registry is not empty. -/
theorem thm_C9_counterexample :
    (acceptStep 0 ++ serveClientEvents 0).count Ev.lockAcq = 1 ∧
    Ev.lockAcq ∉ acceptStep 0 ∧
    Ev.regInsert 0 ∈ acceptStep 0 ∧
    eventsUnderLock (acceptStep 0) = [] ∧
    ConnTrace 1 (connAt 1 0) ∧
    ConnTrace 0 (connAt 0 5) ∧
    Interleave (connAt 1 0) (connAt 0 5) (connAt 1 0 ++ connAt 0 5) ∧
    regAfter (connAt 1 0 ++ connAt 0 5) ⟨∅, false⟩ = ⟨{0}, true⟩ ∧
    ({0} : Finset Nat) ≠ (∅ : Finset Nat) := by
  refine ⟨by decide, by decide, by decide, by decide,
    connAt_trace 1 0 (by omega), connAt_trace 0 5 (by omega),
    interleave_append (connAt 1 0) (connAt 0 5), by decide, by decide⟩

/-- C9 as amended: the worker registry is the shared mutable state; each
worker acquires the lock exactly once, at completion, and the only event it
performs while holding the lock is the O(1) removal of its own handle (no
I/O under the lock); the insertion at spawn time is performed by the
acceptor without holding the lock, and since th.start() precedes the add it
races the entire worker body: the admissible orders of one connection are
exactly the six positions of the insertion relative to the worker events;
in the orders where the insertion precedes the removal the connection
leaves the registry unchanged — in particular, after two concurrently
processed connections complete under every interleaving of such orders the
registry is empty — while in the orders where the removal comes first it
raises KeyError on the absent handle and the handle remains registered. -/
theorem thm_C9_lock_registry :
    (∀ t : Nat,
      eventsUnderLock (serveClientEvents t) = [Ev.regRemove t] ∧
      (serveClientEvents t).count Ev.lockAcq = 1 ∧
      eventsUnderLock (acceptStep t) = [] ∧
      Ev.regInsert t ∈ acceptStep t) ∧
    (∀ (t : Nat) (zs : List Ev), ConnTrace t zs →
      ∃ n, n ≤ 5 ∧ zs = connAt t n) ∧
    (∀ (t n : Nat) (st : RegState), t ∉ st.reg → n ≤ 3 →
      regAfter (connAt t n) st = st) ∧
    (∀ (t n : Nat) (st : RegState), t ∉ st.reg → 4 ≤ n → n ≤ 5 →
      regAfter (connAt t n) st = ⟨insert t st.reg, true⟩) ∧
    (∀ (t0 t1 n0 n1 : Nat) (zs : List Ev), t0 ≠ t1 → n0 ≤ 3 → n1 ≤ 3 →
      Interleave (connAt t0 n0) (connAt t1 n1) zs →
      regAfter zs ⟨∅, false⟩ = ⟨∅, false⟩) := by
  refine ⟨?_, ?_, ?_, ?_, ?_⟩
  · intro t
    refine ⟨rfl, ?_, rfl, by simp [acceptStep]⟩
    simp [serveClientEvents, List.count_cons]
  · intro t zs h
    exact connTrace_shape t zs h
  · intro t n st hmem hn
    exact connAt_clean t n st hmem hn
  · intro t n st hmem h4 h5
    exact connAt_fault t n st hmem h4 h5
  · intro t0 t1 n0 n1 zs hne h0 h1 hint
    rw [interleave_regAfter (connAt t0 n0) (connAt t1 n1) zs t0 t1 hne
      (connAt_touches t0 n0) (connAt_touches t1 n1) hint ⟨∅, false⟩]
    rw [connAt_clean t0 n0 ⟨∅, false⟩ (by simp) h0]
    rw [connAt_clean t1 n1 ⟨∅, false⟩ (by simp) h1]

/-- C9 witness: the amended theorem applied at worker handles 0 and 1 — the
lock discipline, the shape of an admissible order, a clean insert-first
order, a raced removal-first order, and the sequential interleaving of two
clean connections. -/
theorem thm_C9_lock_registry_witness :
    eventsUnderLock (serveClientEvents 0) = [Ev.regRemove 0] ∧
    (∃ n, n ≤ 5 ∧ connAt 0 2 = connAt 0 n) ∧
    regAfter (connAt 0 0) ⟨∅, false⟩ = ⟨∅, false⟩ ∧
    regAfter (connAt 0 5) ⟨∅, false⟩ = ⟨insert 0 ∅, true⟩ ∧
    regAfter (connAt 0 0 ++ connAt 1 0) ⟨∅, false⟩ = ⟨∅, false⟩ :=
  ⟨(thm_C9_lock_registry.1 0).1,
   thm_C9_lock_registry.2.1 0 (connAt 0 2) (connAt_trace 0 2 (by omega)),
   thm_C9_lock_registry.2.2.1 0 0 ⟨∅, false⟩ (by simp) (by omega),
   thm_C9_lock_registry.2.2.2.1 0 5 ⟨∅, false⟩ (by simp) (by omega) (by omega),
   thm_C9_lock_registry.2.2.2.2 0 1 0 0 (connAt 0 0 ++ connAt 1 0) (by omega)
     (by omega) (by omega) (interleave_append (connAt 0 0) (connAt 1 0))⟩

/-- C3: every Request parse_request returns has version HTTP/1.1 and the
Host lookup yields a non-empty value; a request line (within the length
limit) whose version token differs from HTTP/1.1 fails with 505 before any
handler could run; and when the request line and the header block both parse
but the Host lookup is absent or empty, parsing fails with 400 Host header
is missing. -/
theorem thm_C3_invariants :
    (∀ (s : List Nat) (req : Request), parse_request s = .ok req →
      req.version = "HTTP/1.1" ∧
      ∃ v, getHeader req.headers "Host" = some v ∧ v ≠ "") ∧
    (∀ (s : List Nat) (m t v : String),
      ¬ (readline (MAX_LINE + 1) s).1.length > MAX_LINE →
      pySplit (decodeLatin1 (readline (MAX_LINE + 1) s).1) = [m, t, v] →
      v ≠ "HTTP/1.1" →
      parse_request s = .error ⟨505, "HTTP Version Not Supported", none⟩) ∧
    (∀ (s : List Nat) (rl : (String × String × String) × List Nat)
       (hs : List (String × String)) (rest2 : List Nat),
      parse_request_line s = .ok rl → parse_headers rl.2 = .ok (hs, rest2) →
      (getHeader hs "Host" = none ∨ getHeader hs "Host" = some "") →
      parse_request s = .error ⟨400, "Bad request", some "Host header is missing"⟩) := by
  refine ⟨?_, ?_, ?_⟩
  · intro s req h
    unfold parse_request at h
    rcases hline : parse_request_line s with e | ⟨⟨m, t, v⟩, rest⟩
    · rw [hline] at h
      exact absurd h (by simp)
    · simp only [hline] at h
      have hv := parse_request_line_ok_version s m t v rest hline
      rcases hhdr : parse_headers rest with e2 | ⟨hs, rest2⟩
      · simp only [hhdr] at h
        exact absurd h (by simp)
      · simp only [hhdr] at h
        rcases hhost : getHeader hs "Host" with _ | hostV
        · simp only [hhost] at h
          exact absurd h (by simp)
        · simp only [hhost] at h
          by_cases hemp : hostV = ""
          · rw [if_pos hemp] at h
            exact absurd h (by simp)
          · rw [if_neg hemp] at h
            rw [Except.ok.injEq] at h
            subst h
            exact ⟨hv, hostV, hhost, hemp⟩
  · intro s m t v hshort htoks hv
    exact parse_request_error_of_line s _
      (parse_request_line_unsupported s m t v hshort htoks hv)
  · intro s rl hs rest2 hline hhdr hhost
    rcases rl with ⟨⟨m, t, v⟩, rest⟩
    dsimp only at hhdr
    unfold parse_request
    rcases hhost with hnone | hemp
    · simp only [hline, hhdr, hnone]
    · simp only [hline, hhdr, hemp, if_pos]

/-- C3 witness: the invariants at a concrete accepted request, a concrete
HTTP/1.0 request rejected with 505, and a concrete Host-less request
rejected with 400. -/
theorem thm_C3_invariants_witness :
    ((⟨"GET", "/x/y", "HTTP/1.1", [("Host", "h")], []⟩ : Request).version =
        "HTTP/1.1" ∧
      ∃ v, getHeader [("Host", "h")] "Host" = some v ∧ v ≠ "") ∧
    parse_request (latin1Bytes "GET /x/y HTTP/1.0\r\nHost: h\r\n\r\n") =
      .error ⟨505, "HTTP Version Not Supported", none⟩ ∧
    parse_request (latin1Bytes "GET /x/y HTTP/1.1\r\n\r\n") =
      .error ⟨400, "Bad request", some "Host header is missing"⟩ := by
  refine ⟨?_, ?_, ?_⟩
  · exact (thm_C3_invariants.1 (latin1Bytes "GET /x/y HTTP/1.1\r\nHost: h\r\n\r\n")
      ⟨"GET", "/x/y", "HTTP/1.1", [("Host", "h")], []⟩ (by rfl))
  · exact thm_C3_invariants.2.1 (latin1Bytes "GET /x/y HTTP/1.0\r\nHost: h\r\n\r\n")
      "GET" "/x/y" "HTTP/1.0" (by decide) (by rfl) (by decide)
  · exact thm_C3_invariants.2.2 (latin1Bytes "GET /x/y HTTP/1.1\r\n\r\n")
      (("GET", "/x/y", "HTTP/1.1"), latin1Bytes "\r\n") [] [] (by rfl) (by rfl)
      (Or.inl (by rfl))

/-- C10 counterexample: a header block whose first Host header has an empty
value and whose second (written host, matching case-insensitively) has the
non-empty value h.  The block does contain a header named Host under ASCII
case-insensitive comparison with a non-empty value, so the claimed
equivalence requires parsing to succeed; but headers.get returns the first
match — the empty one — which is falsy, and parse_request fails with 400
Host header is missing. -/
theorem thm_C10_counterexample :
    parse_headers (latin1Bytes "Host:\r\nhost: h\r\n\r\n") =
      .ok ([("Host", ""), ("host", "h")], []) ∧
    (∃ p ∈ [("Host", ""), ("host", "h")],
      lowerAscii p.1 = lowerAscii "Host" ∧ p.2 ≠ "") ∧
    parse_request (latin1Bytes "GET / HTTP/1.1\r\nHost:\r\nhost: h\r\n\r\n") =
      .error ⟨400, "Bad request", some "Host header is missing"⟩ := by
  refine ⟨by rfl, ⟨("host", "h"), by simp, by rfl, by simp⟩, by rfl⟩

/-- C10 as amended: once the request line and the header block have parsed,
parse_request fails with 400 Host header is missing exactly when the
case-insensitive lookup of Host — which returns the value of the FIRST
matching header — yields nothing or the empty string; a lone lowercase
host: h header satisfies the requirement, a lone Host: header with empty
value does not. -/
theorem thm_C10_host_check :
    (∀ (s : List Nat) (rl : (String × String × String) × List Nat)
       (hs : List (String × String)) (rest2 : List Nat),
      parse_request_line s = .ok rl → parse_headers rl.2 = .ok (hs, rest2) →
      (parse_request s = .error ⟨400, "Bad request", some "Host header is missing"⟩ ↔
        getHeader hs "Host" = none ∨ getHeader hs "Host" = some "")) ∧
    (∀ hs : List (String × String),
      getHeader (("host", "h") :: hs) "Host" = some "h") ∧
    (∀ hs : List (String × String), (∀ p ∈ hs, lowerAscii p.1 ≠ "host") →
      getHeader (("Host", "") :: hs) "Host" = some "") := by
  refine ⟨?_, ?_, ?_⟩
  · intro s rl hs rest2 hline hhdr
    rcases rl with ⟨⟨m, t, v⟩, rest⟩
    dsimp only at hhdr
    constructor
    · intro h
      unfold parse_request at h
      simp only [hline, hhdr] at h
      rcases hhost : getHeader hs "Host" with _ | hostV
      · exact Or.inl rfl
      · simp only [hhost] at h
        by_cases hemp : hostV = ""
        · exact Or.inr (by rw [hemp])
        · rw [if_neg hemp] at h
          exact absurd h (by simp)
    · intro h
      unfold parse_request
      rcases h with hnone | hemp
      · simp only [hline, hhdr, hnone]
      · simp only [hline, hhdr, hemp, if_pos]
  · intro hs
    unfold getHeader
    rw [List.find?_cons_of_pos _ (by rfl)]
    rfl
  · intro hs hnone
    unfold getHeader
    rw [List.find?_cons_of_pos _ (by rfl)]
    rfl

/-- C10 witness: the amended equivalence applied to a concrete request with
a lone empty-valued Host header (rejected), plus the concrete lookups for a
lone lowercase host header and a lone empty Host header. -/
theorem thm_C10_host_check_witness :
    parse_request (latin1Bytes "GET / HTTP/1.1\r\nHost:\r\n\r\n") =
      .error ⟨400, "Bad request", some "Host header is missing"⟩ ∧
    getHeader [("host", "h")] "Host" = some "h" ∧
    getHeader [("Host", "")] "Host" = some "" := by
  refine ⟨?_, ?_, ?_⟩
  · exact (thm_C10_host_check.1 (latin1Bytes "GET / HTTP/1.1\r\nHost:\r\n\r\n")
      (("GET", "/", "HTTP/1.1"), latin1Bytes "Host:\r\n\r\n")
      [("Host", "")] [] (by rfl) (by rfl)).mpr (Or.inr (by rfl))
  · exact thm_C10_host_check.2.1 []
  · exact thm_C10_host_check.2.2 [] (by simp)

/-- C4: a request line longer than MAX_LINE bytes fails parsing with 400 and
text Request line is too long; a header line longer than MAX_LINE fails with
494 Request header too large at any point of the header loop; a header
block of more than MAX_HEADERS well-formed lines before the blank terminator
fails with 494 Too many headers; and a block of at most MAX_HEADERS lines
(in particular exactly 100) is accepted in full. -/
theorem thm_C4_limits :
    (∀ s : List Nat, lineLen s > MAX_LINE →
      parse_request s = .error ⟨400, "Bad request", some "Request line is too long"⟩) ∧
    (∀ (rem : Nat) (s : List Nat) (acc : List (List Nat)), lineLen s > MAX_LINE →
      parse_headers_go rem s acc = .error ⟨494, "Request header too large", none⟩) ∧
    (∀ (ls : List (List Nat)) (rest : List Nat), (∀ l ∈ ls, properLine l) →
      ls.length > MAX_HEADERS →
      parse_headers (encodeLines ls ++ [13, 10] ++ rest) =
        .error ⟨494, "Too many headers", none⟩) ∧
    (∀ (ls : List (List Nat)) (rest : List Nat), (∀ l ∈ ls, properLine l) →
      ls.length ≤ MAX_HEADERS →
      parse_headers (encodeLines ls ++ [13, 10] ++ rest) =
        .ok (parseHeaderLines (ls.map (fun l => l ++ [13, 10])), rest)) := by
  refine ⟨?_, ?_, ?_, ?_⟩
  · intro s h
    exact parse_request_error_of_line s _ (parse_request_line_too_long s h)
  · intro rem s acc h
    exact parse_headers_go_too_long rem s acc h
  · intro ls rest hwf hcount
    unfold parse_headers
    rw [parse_headers_go_block ls MAX_HEADERS [] rest hwf,
      if_pos (by omega)]
    rfl
  · intro ls rest hwf hcount
    unfold parse_headers
    rw [parse_headers_go_block ls MAX_HEADERS [] rest hwf,
      if_neg (by omega)]
    rfl

/-- C4 witness: the limits at concrete inputs — a 65537-byte first line, a
65537-byte header line after an accepted request line position, a block of
101 header lines, and a block of exactly 100 header lines that is accepted
in full. -/
theorem thm_C4_limits_witness :
    parse_request (List.replicate (MAX_LINE + 1) 65) =
      .error ⟨400, "Bad request", some "Request line is too long"⟩ ∧
    parse_headers_go MAX_HEADERS (List.replicate (MAX_LINE + 1) 66) [] =
      .error ⟨494, "Request header too large", none⟩ ∧
    parse_headers (encodeLines (List.replicate 101 [104]) ++ [13, 10]) =
      .error ⟨494, "Too many headers", none⟩ ∧
    parse_headers (encodeLines (List.replicate 100 [104]) ++ [13, 10]) =
      .ok (parseHeaderLines ((List.replicate 100 ([104] : List Nat)).map
        (fun l => l ++ [13, 10])), []) := by
  refine ⟨?_, ?_, ?_, ?_⟩
  · exact thm_C4_limits.1 (List.replicate (MAX_LINE + 1) 65)
      (by rw [lineLen_replicate (MAX_LINE + 1) 65 (by omega)]; omega)
  · exact thm_C4_limits.2.1 MAX_HEADERS (List.replicate (MAX_LINE + 1) 66) []
      (by rw [lineLen_replicate (MAX_LINE + 1) 66 (by omega)]; omega)
  · have h := thm_C4_limits.2.2.1 (List.replicate 101 [104]) []
      (by
        intro l hl
        rw [List.eq_of_mem_replicate hl]
        refine ⟨by simp, by simp, by norm_num [MAX_LINE]⟩)
      (by simp [MAX_HEADERS])
    simpa using h
  · have h := thm_C4_limits.2.2.2 (List.replicate 100 [104]) []
      (by
        intro l hl
        rw [List.eq_of_mem_replicate hl]
        refine ⟨by simp, by simp, by norm_num [MAX_LINE]⟩)
      (by simp [MAX_HEADERS])
    simpa using h

/-- C8 counterexample: the claim bounds the line buffer by MAX_LINE (65536)
bytes, but readline is called with limit MAX_LINE + 1, so on a stream whose
first line is longer the buffer returned to parse_request_line holds exactly
65537 bytes of that single line before the 400 rejection. -/
theorem thm_C8_counterexample :
    (readline (MAX_LINE + 1) (List.replicate (MAX_LINE + 1) 65)).1.length =
      MAX_LINE + 1 ∧
    MAX_LINE + 1 > MAX_LINE ∧
    parse_request_line (List.replicate (MAX_LINE + 1) 65) =
      .error ⟨400, "Bad request", some "Request line is too long"⟩ := by
  have hll : lineLen (List.replicate (MAX_LINE + 1) 65) = MAX_LINE + 1 :=
    lineLen_replicate (MAX_LINE + 1) 65 (by omega)
  refine ⟨?_, by omega, ?_⟩
  · rw [readline_fst_length, hll]
    omega
  · exact parse_request_line_too_long _ (by omega)

/-- C8 as amended: request-line and header parsing read single lines through
readline with limit MAX_LINE + 1, so the line buffer never holds more than
MAX_LINE + 1 bytes (the one extra byte is what detects overflow, and any
line longer than MAX_LINE is rejected); and a successful header loop never
accepts more than MAX_HEADERS lines into the accumulated header list, each
accepted line no longer than MAX_LINE — in particular any successful
parse_headers run, which starts from the empty accumulator, returns at most
MAX_HEADERS lines. -/
theorem thm_C8_buffer_bounds :
    (∀ s : List Nat, (readline (MAX_LINE + 1) s).1.length ≤ MAX_LINE + 1) ∧
    (∀ (rem : Nat) (s : List Nat) (acc ls : List (List Nat)) (rest : List Nat),
      parse_headers_go rem s acc = .ok (ls, rest) →
      ls.length ≤ acc.length + rem ∧ ∀ l ∈ ls, l ∈ acc ∨ l.length ≤ MAX_LINE) ∧
    (∀ (s : List Nat) (ls : List (List Nat)) (rest : List Nat),
      parse_headers_go MAX_HEADERS s [] = .ok (ls, rest) →
      ls.length ≤ MAX_HEADERS ∧ ∀ l ∈ ls, l.length ≤ MAX_LINE) := by
  refine ⟨?_, ?_, ?_⟩
  · intro s
    rw [readline_fst_length]
    omega
  · exact parse_headers_go_ok_bound
  · intro s ls rest h
    obtain ⟨hlen, hmem⟩ := parse_headers_go_ok_bound MAX_HEADERS s [] ls rest h
    refine ⟨by simpa using hlen, ?_⟩
    intro l hl
    rcases hmem l hl with hin | hle
    · exact absurd hin (List.not_mem_nil l)
    · exact hle

/-- C8 witness: the amended bound applied to a concrete header block of two
lines. -/
theorem thm_C8_buffer_bounds_witness :
    (readline (MAX_LINE + 1) (latin1Bytes "GET / HTTP/1.1\r\n")).1.length ≤
      MAX_LINE + 1 ∧
    ((latin1Bytes "Host: h\r\nA: b\r\n").length ≤ MAX_LINE + 1 ∧
      ([latin1Bytes "Host: h\r\n", latin1Bytes "A: b\r\n"].length ≤ MAX_HEADERS ∧
        ∀ l ∈ [latin1Bytes "Host: h\r\n", latin1Bytes "A: b\r\n"],
          l.length ≤ MAX_LINE)) := by
  refine ⟨thm_C8_buffer_bounds.1 (latin1Bytes "GET / HTTP/1.1\r\n"),
    by decide, ?_⟩
  exact thm_C8_buffer_bounds.2.2 (latin1Bytes "Host: h\r\nA: b\r\n\r\nrest")
    [latin1Bytes "Host: h\r\n", latin1Bytes "A: b\r\n"] (latin1Bytes "rest")
    (by rfl)

theorem ne_ten_of_not_ws (b : Nat) (h : isWsB b = false) : b ≠ 10 := by
  intro hEq
  subst hEq
  simp [isWsB] at h

/-- C1: for every well-formed request stream — a request line of exactly
three whitespace-separated tokens (method, target, version HTTP/1.1) with
arbitrary extra whitespace, within the MAX_LINE limit, followed by at most
MAX_HEADERS well-formed header lines each within the limit, the blank
terminator, and whose parsed header block carries a non-empty Host value —
parse_request succeeds without any error and returns a Request whose method,
target and version fields are exactly the first, second and third
whitespace-separated tokens of the request line. -/
theorem thm_C1_parse_request_wellformed
    (pre m s1 t s2 tws : List Nat) (hls : List (List Nat)) (rest : List Nat)
    (hostV : String)
    (hpre : wsRun pre) (hm : tokB m) (hs1 : sepB s1) (ht : tokB t)
    (hs2 : sepB s2) (htws : wsRun tws)
    (hlinelen :
      (pre ++ m ++ s1 ++ t ++ s2 ++ latin1Bytes "HTTP/1.1" ++ tws).length + 1 ≤
        MAX_LINE)
    (hhdr : ∀ l ∈ hls, properLine l) (hcount : hls.length ≤ MAX_HEADERS)
    (hhost : getHeader (parseHeaderLines (hls.map (fun l => l ++ [13, 10])))
        "Host" = some hostV)
    (hne : hostV ≠ "") :
    parse_request
        ((pre ++ m ++ s1 ++ t ++ s2 ++ latin1Bytes "HTTP/1.1" ++ tws) ++
          10 :: (encodeLines hls ++ [13, 10] ++ rest)) =
      .ok ⟨decodeLatin1 m, decodeLatin1 t, "HTTP/1.1",
        parseHeaderLines (hls.map (fun l => l ++ [13, 10])), rest⟩ ∧
    pySplit (decodeLatin1
        ((pre ++ m ++ s1 ++ t ++ s2 ++ latin1Bytes "HTTP/1.1" ++ tws) ++ [10])) =
      [decodeLatin1 m, decodeLatin1 t, "HTTP/1.1"] := by
  have hverTok : tokB (latin1Bytes "HTTP/1.1") := by decide
  have hverDec : decodeLatin1 (latin1Bytes "HTTP/1.1") = "HTTP/1.1" := by rfl
  have hps : ∀ p ∈ [(s1, t), (s2, latin1Bytes "HTTP/1.1")], sepB p.1 ∧ tokB p.2 := by
    intro p hp
    simp only [List.mem_cons, List.not_mem_nil, or_false] at hp
    rcases hp with rfl | rfl
    · exact ⟨hs1, ht⟩
    · exact ⟨hs2, hverTok⟩
  have hBeq :
      pre ++ m ++
          (([(s1, t), (s2, latin1Bytes "HTTP/1.1")].map
            (fun p => p.1 ++ p.2)).flatten) ++ tws =
        pre ++ m ++ s1 ++ t ++ s2 ++ latin1Bytes "HTTP/1.1" ++ tws := by
    simp [List.append_assoc]
  have hsplit :
      pySplit (decodeLatin1
          ((pre ++ m ++ s1 ++ t ++ s2 ++ latin1Bytes "HTTP/1.1" ++ tws) ++ [10])) =
        [decodeLatin1 m, decodeLatin1 t, "HTTP/1.1"] := by
    rw [← hBeq]
    rw [pySplit_assembled pre m [(s1, t), (s2, latin1Bytes "HTTP/1.1")] tws
      hpre hm hps htws]
    simp [hverDec]
  have hno : ∀ b ∈ pre ++ m ++ s1 ++ t ++ s2 ++ latin1Bytes "HTTP/1.1" ++ tws,
      b ≠ 10 := by
    intro b hb
    simp only [List.append_assoc, List.mem_append] at hb
    rcases hb with hb | hb | hb | hb | hb | hb | hb
    · exact (hpre b hb).2.2
    · exact ne_ten_of_not_ws b (hm.2 b hb).2
    · exact (hs1.2 b hb).2.2
    · exact ne_ten_of_not_ws b (ht.2 b hb).2
    · exact (hs2.2 b hb).2.2
    · exact ne_ten_of_not_ws b (hverTok.2 b hb).2
    · exact (htws b hb).2.2
  have hread := readline_prefix_line
    (pre ++ m ++ s1 ++ t ++ s2 ++ latin1Bytes "HTTP/1.1" ++ tws)
    (MAX_LINE + 1) (encodeLines hls ++ [13, 10] ++ rest) hno (by omega)
  have hline : parse_request_line
      ((pre ++ m ++ s1 ++ t ++ s2 ++ latin1Bytes "HTTP/1.1" ++ tws) ++
        10 :: (encodeLines hls ++ [13, 10] ++ rest)) =
      .ok ((decodeLatin1 m, decodeLatin1 t, "HTTP/1.1"),
        encodeLines hls ++ [13, 10] ++ rest) := by
    have hok := parse_request_line_of_toks
      ((pre ++ m ++ s1 ++ t ++ s2 ++ latin1Bytes "HTTP/1.1" ++ tws) ++
        10 :: (encodeLines hls ++ [13, 10] ++ rest))
      (decodeLatin1 m) (decodeLatin1 t)
      (by
        rw [hread]
        simp only [List.length_append, List.length_singleton]
        simp only [List.length_append] at hlinelen
        omega)
      (by rw [hread]; exact hsplit)
    rw [hok, hread]
  have hhdrs : parse_headers (encodeLines hls ++ [13, 10] ++ rest) =
      .ok (parseHeaderLines (hls.map (fun l => l ++ [13, 10])), rest) := by
    unfold parse_headers
    rw [parse_headers_go_block hls MAX_HEADERS [] rest hhdr,
      if_neg (by omega)]
    rfl
  refine ⟨?_, hsplit⟩
  unfold parse_request
  simp only [hline, hhdrs, hhost]
  rw [if_neg hne]

/-- C1 witness: the well-formed request GET /x/y HTTP/1.1 with a Host
header parses to exactly its three request-line tokens. -/
theorem thm_C1_parse_request_wellformed_witness :
    parse_request
        ((([] : List Nat) ++ latin1Bytes "GET" ++ [32] ++ latin1Bytes "/x/y" ++
          [32] ++ latin1Bytes "HTTP/1.1" ++ [13]) ++
          10 :: (encodeLines [latin1Bytes "Host: h"] ++ [13, 10] ++ [])) =
      .ok ⟨decodeLatin1 (latin1Bytes "GET"), decodeLatin1 (latin1Bytes "/x/y"),
        "HTTP/1.1",
        parseHeaderLines ([latin1Bytes "Host: h"].map (fun l => l ++ [13, 10])),
        []⟩ :=
  (thm_C1_parse_request_wellformed [] (latin1Bytes "GET") [32]
    (latin1Bytes "/x/y") [32] [13] [latin1Bytes "Host: h"] [] "h"
    (by decide) (by decide) (by decide) (by decide) (by decide) (by decide)
    (by decide) (by decide) (by decide) (by rfl) (by decide)).1
